import Mathlib

/-!
Verification development for the node hierarchy and serialization algorithm
of an XML tree builder (xmlcreate).

Two complementary embeddings are used:

* A heap/store model (`Store`) for the mutation operations of `XmlNode`
  (`insertChild`, `removeChild`, `removeChildAtIndex`, `remove`) and the
  `XmlElement` override of `insertChild`.  JavaScript object identity is
  modelled by natural-number node ids; the heap maps each id to its record
  (variant tag, name, parent back-reference, ordered child id sequence).

* An inductive tree model (`XmlTree`) for the serialization (`toString`)
  algorithm, including the pretty-printing line-break policy of
  `XmlElement.toString`.

Definitions are translated from the TypeScript sources.  Where a source file
of the repository is not available (the validators `validateName` and
`validateChar`, and the leaf variants other than `XmlCdata`), definitions are
modelled from the specification and marked as such in their doc comments.
-/

namespace Xml

/-- The closed set of node variants of the hierarchy. -/
inductive Tag where
  | element
  | attribute
  | text
  | cdata
  | comment
  | charRef
  | entityRef
  | procInst
  | dtdEntity
deriving DecidableEq, Repr

/-- Per-object record of a node in the heap model: variant tag, name (used
by the duplicate-attribute check of `XmlElement.insertChild`), the `_parent`
back-reference and the `_children` id sequence of `XmlNode`. -/
structure NodeData where
  tag : Tag
  name : String := ""
  parent : Option Nat := none
  children : List Nat := []
deriving DecidableEq, Repr

/-- The heap: JavaScript object identity is a `Nat` id. -/
def Store := Nat → NodeData

/-- Heap update at one id. -/
def upd (s : Store) (i : Nat) (f : NodeData → NodeData) : Store :=
  fun j => if j = i then f (s j) else s j

/-- The error kinds of the design (§7 of the spec); thrown JavaScript
`TypeError`/`RangeError`/`Error` values are classified by these kinds. -/
inductive Err where
  | invalidArgument
  | invalidIndex
  | invalidName
  | invalidCharacterData
  | duplicateAttribute
  | unsupportedOperation
deriving DecidableEq, Repr

/-- Which variants have a usable child sequence: `XmlElement`, and
`XmlAttribute` as a restricted container; every other variant overrides the
child operations to throw `UnsupportedOperation`. -/
def canHaveChildren : Tag → Bool
  | .element => true
  | .attribute => true
  | _ => false

/-- `XmlNode.removeChild` (base class): if `node` occurs in `_children`,
clear its `_parent` and splice it out of the sequence (first occurrence),
returning whether a removal occurred. -/
def XmlNode.removeChild (s : Store) (self node : Nat) : Store × Bool :=
  if node ∈ (s self).children then
    let s1 := upd s node (fun d => { d with parent := none })
    let s2 := upd s1 self (fun d => { d with children := d.children.erase node })
    (s2, true)
  else
    (s, false)

/-- Dynamic dispatch of `removeChild`: leaf variants other than
`XmlAttribute` override it to throw `UnsupportedOperation`. -/
def removeChildD (s : Store) (self node : Nat) : Except Err (Store × Bool) :=
  if canHaveChildren (s self).tag then
    Except.ok (XmlNode.removeChild s self node)
  else
    Except.error Err.unsupportedOperation

/-- `XmlNode.removeChildAtIndex`: bounds-check the index, then clear the
`_parent` of the node at that index and splice it out, returning it. -/
def XmlNode.removeChildAtIndex (s : Store) (self : Nat) (index : Nat) :
    Except Err (Store × Nat) :=
  if h : index < (s self).children.length then
    let node := (s self).children.get ⟨index, h⟩
    let s1 := upd s node (fun d => { d with parent := none })
    let s2 := upd s1 self (fun d => { d with children := d.children.eraseIdx index })
    Except.ok (s2, node)
  else
    Except.error Err.invalidIndex

/-- Dynamic dispatch of `removeChildAtIndex`. -/
def removeChildAtIndexD (s : Store) (self : Nat) (index : Nat) :
    Except Err (Store × Nat) :=
  if canHaveChildren (s self).tag then
    XmlNode.removeChildAtIndex s self index
  else
    Except.error Err.unsupportedOperation

/-- `XmlNode.insertChild` (base class).  The index (default: end) is
validated against the current bounds; if `node` is already a direct child
nothing happens and `undefined` (here `none`) is returned; otherwise `node`
is first detached from its current parent (a dispatched `removeChild` call),
its `_parent` is set to `self`, and it is spliced into `_children` at the
index. -/
def XmlNode.insertChild (s : Store) (self node : Nat) (index : Option Nat) :
    Except Err (Store × Option Nat) :=
  let idx := index.getD (s self).children.length
  if idx > (s self).children.length then
    Except.error Err.invalidIndex
  else if node ∈ (s self).children then
    Except.ok (s, none)
  else do
    let s1 ← match (s node).parent with
      | none => Except.ok s
      | some p => do
          let r ← removeChildD s p node
          Except.ok r.1
    let s2 := upd s1 node (fun d => { d with parent := some self })
    let s3 := upd s2 self (fun d => { d with children := d.children.insertIdx idx node })
    Except.ok (s3, some node)

/-- The variants an `XmlElement` accepts as children. -/
def allowedXmlElementChild : Tag → Bool
  | .attribute => true
  | .cdata => true
  | .charRef => true
  | .comment => true
  | .element => true
  | .entityRef => true
  | .procInst => true
  | .text => true
  | _ => false

/-- The variants an `XmlAttribute` accepts as value children. -/
def allowedXmlAttributeChild : Tag → Bool
  | .text => true
  | .charRef => true
  | .entityRef => true
  | _ => false

/-- `XmlElement.insertChild` (override): reject disallowed variants; if the
node is an `XmlAttribute`, scan the existing attribute children for a name
collision; otherwise delegate to the base insertion algorithm. -/
def XmlElement.insertChild (s : Store) (self node : Nat) (index : Option Nat) :
    Except Err (Store × Option Nat) :=
  if !allowedXmlElementChild (s node).tag then
    Except.error Err.invalidArgument
  else if (s node).tag = Tag.attribute &&
      (((s self).children.filter (fun c => (s c).tag = Tag.attribute)).any
        (fun c => (s c).name = (s node).name)) then
    Except.error Err.duplicateAttribute
  else
    XmlNode.insertChild s self node index

/-- Modelled from the spec: the `XmlAttribute` source file is not in `src/`.
§4.3: Attribute "supports the same child operations as a restricted
container (value nodes limited to Text, Character-Reference,
Entity-Reference)"; like the element override, a disallowed variant is
rejected with `InvalidArgument` before delegating to the base algorithm. -/
def XmlAttribute.insertChild (s : Store) (self node : Nat) (index : Option Nat) :
    Except Err (Store × Option Nat) :=
  if !allowedXmlAttributeChild (s node).tag then
    Except.error Err.invalidArgument
  else
    XmlNode.insertChild s self node index

/-- Dynamic dispatch of `insertChild` over the variant of `self`. -/
def insertChildD (s : Store) (self node : Nat) (index : Option Nat) :
    Except Err (Store × Option Nat) :=
  match (s self).tag with
  | .element => XmlElement.insertChild s self node index
  | .attribute => XmlAttribute.insertChild s self node index
  | _ => Except.error Err.unsupportedOperation

/-- `XmlNode.remove`: detach `self` from its parent (if any) via the
parent's (dispatched) `removeChild`, returning the former parent. -/
def XmlNode.remove (s : Store) (self : Nat) : Except Err (Store × Option Nat) :=
  match (s self).parent with
  | some p => do
      let r ← removeChildD s p self
      Except.ok (r.1, some p)
  | none => Except.ok (s, none)

/-- The parent/children consistency invariant (§3 of the spec): the
`_parent` back-reference of `n` points to `p` exactly when `n` occurs in
`p`'s child sequence; child sequences have no duplicates; and variants that
forbid children have empty sequences. -/
def Consistent (s : Store) : Prop :=
  (∀ n p : Nat, (s n).parent = some p ↔ n ∈ (s p).children) ∧
  (∀ p : Nat, ((s p).children).Nodup) ∧
  (∀ p : Nat, canHaveChildren (s p).tag = false → (s p).children = [])

/-- The store produced by the mutation phase of a (non-no-op) base-class
insertion: set the `_parent` of `node` and splice it into `_children`. -/
def afterIns (s1 : Store) (self node idx : Nat) : Store :=
  upd (upd s1 node (fun d => { d with parent := some self })) self
    (fun d => { d with children := d.children.insertIdx idx node })

/-- Which variants a given container variant accepts as children (the
element allow-list, and the attribute value-node restriction). -/
def allowedChildOf : Tag → Tag → Bool
  | .element, t => allowedXmlElementChild t
  | .attribute, t => allowedXmlAttributeChild t
  | _, _ => false

/-- A concrete heap: element `0` (named `e`) with an attribute child `1`
(named `a`) and an element child `2` (named `b`); a detached DTD entity `3`
and a detached element `4`. -/
def exStore : Store := fun n =>
  match n with
  | 0 => { tag := .element, name := "e", parent := none, children := [1, 2] }
  | 1 => { tag := .attribute, name := "a", parent := some 0, children := [] }
  | 2 => { tag := .element, name := "b", parent := some 0, children := [] }
  | 3 => { tag := .dtdEntity, name := "d", parent := none, children := [] }
  | _ => { tag := .element, name := "z", parent := none, children := [] }

/-- `exStore` extended with a detached attribute node `5` named `a`. -/
def exStore2 : Store := fun n =>
  match n with
  | 0 => { tag := .element, name := "e", parent := none, children := [1, 2] }
  | 1 => { tag := .attribute, name := "a", parent := some 0, children := [] }
  | 2 => { tag := .element, name := "b", parent := some 0, children := [] }
  | 5 => { tag := .attribute, name := "a", parent := none, children := [] }
  | _ => { tag := .element, name := "z", parent := none, children := [] }

/-- A concrete heap for a re-parenting move: element `0` (childless),
element `1` with the single element child `2`. -/
def mvStore : Store := fun n =>
  match n with
  | 0 => { tag := .element, name := "e", parent := none, children := [] }
  | 1 => { tag := .element, name := "p", parent := none, children := [2] }
  | 2 => { tag := .element, name := "q", parent := some 1, children := [] }
  | _ => { tag := .element, name := "z", parent := none, children := [] }

/-- The heap after the move `insertChildD mvStore 0 2 none`. -/
def mvResult : Store × Option Nat :=
  ((insertChildD mvStore 0 2 none).toOption).getD (mvStore, none)

/-- Resolved formatting options (`StringOptions` of the source): `pretty`
defaults to false, `indent` to two spaces, `newline` to the platform line
terminator (here "\n"). -/
structure StringOptions where
  pretty : Bool := false
  indent : String := "  "
  newline : String := "\n"

/-- The tree view of a constructed node hierarchy, used for serialization:
children are held inline, as `toString` only ever walks them downwards. -/
inductive XmlTree where
  | element (name : String) (children : List XmlTree)
  | attribute (name : String) (value : List XmlTree)
  | text (t : String)
  | cdata (d : String)
  | comment (c : String)
  | charRef (cp : Nat) (hex : Bool)
  | entityRef (name : String)
  | procInst (target : String) (content : Option String)
  | dtdEntity (t : String)

/-- Does `l` start with `pat`? -/
def listStartsWith : List Char → List Char → Bool
  | [], _ => true
  | _ :: _, [] => false
  | a :: as, b :: bs => a = b && listStartsWith as bs

/-- Split off everything before the first occurrence of `sep`, returning
the remainder (after the separator) when one occurs. -/
def breakOnSep (sep : List Char) : List Char → (List Char × Option (List Char))
  | [] => ([], none)
  | c :: rest =>
    if listStartsWith sep (c :: rest) then
      ([], some ((c :: rest).drop sep.length))
    else
      let r := breakOnSep sep rest
      (c :: r.1, r.2)

def splitLoop (sep : List Char) : Nat → List Char → List (List Char)
  | 0, l => [l]
  | fuel + 1, l =>
    match breakOnSep sep l with
    | (line, none) => [line]
    | (line, some rem) => line :: splitLoop sep fuel rem

/-- JavaScript `String.prototype.split` with a string separator: an empty
separator splits into single characters (and an empty string to `[]`);
otherwise split on each leftmost non-overlapping occurrence.  (The fuel,
one step per produced line, is always sufficient at `length + 1` because
each occurrence of a nonempty separator consumes at least one character.) -/
def jsSplitList (sep l : List Char) : List (List Char) :=
  match sep with
  | [] => l.map (fun c => [c])
  | _ :: _ => splitLoop sep (l.length + 1) l

/-- JavaScript `Array.prototype.join`. -/
def joinWithList (sep : List Char) : List (List Char) → List Char
  | [] => []
  | [x] => x
  | x :: y :: t => x ++ sep ++ joinWithList sep (y :: t)

/-- The indenter of `XmlElement.toString`:
`str.split(newline).map(line => indent + line).join(newline)`. -/
def indentLines (opts : StringOptions) (s : String) : String :=
  String.mk (joinWithList opts.newline.toList
    ((jsSplitList opts.newline.toList s.toList).map
      (fun line => opts.indent.toList ++ line)))

/-- `instanceof XmlCharRef || instanceof XmlEntityRef || instanceof
XmlText`, the per-node test of `allSameLineNodes` and `onSameLine`. -/
def isSameLineNode : XmlTree → Bool
  | .charRef _ _ => true
  | .entityRef _ => true
  | .text _ => true
  | _ => false

/-- `allSameLineNodes` (from source): all nodes are of type `XmlCharRef`,
`XmlEntityRef`, or `XmlText`. -/
def allSameLineNodes (nodes : List XmlTree) : Bool := nodes.all isSameLineNode

/-- `onSameLine` (from source): both nodes are of type `XmlCharRef`,
`XmlEntityRef`, or `XmlText`. -/
def onSameLine (next prev : XmlTree) : Bool :=
  isSameLineNode next && isSameLineNode prev

def isAttributeNode : XmlTree → Bool
  | .attribute _ _ => true
  | _ => false

/-- The child-node loop of `XmlElement.toString`, on pre-rendered pairs
(node, its rendering): before each node a newline is emitted and the
node's rendering indented — unless pretty is off, or all nodes are
same-line nodes (`allSame`, loop-invariant), or the node and its
predecessor are on the same line. -/
def renderContent (opts : StringOptions) (allSame : Bool) :
    Option XmlTree → List (XmlTree × String) → String
  | _, [] => ""
  | prevOpt, (t, str) :: rest =>
    let brk :=
      opts.pretty && !allSame &&
        !(match prevOpt with
          | some prev => onSameLine t prev
          | none => false)
    (if brk then opts.newline ++ indentLines opts str else str) ++
      renderContent opts allSame (some t) rest

/-- The body of `XmlElement.toString` (from source), on pre-rendered
children: separate attributes from content nodes, emit `<name`, each
attribute prefixed by a space, then either `/>` (no content nodes) or
`>`, the content-node loop, a closing newline when pretty and not all
nodes are same-line nodes, and `</name>`. -/
def elementToStringCore (opts : StringOptions) (name : String)
    (pairs : List (XmlTree × String)) : String :=
  let attrPairs := pairs.filter (fun pr => isAttributeNode pr.1)
  let nodePairs := pairs.filter (fun pr => !isAttributeNode pr.1)
  let str0 := "<" ++ name
  let str1 := attrPairs.foldl (fun acc pr => acc ++ " " ++ pr.2) str0
  if nodePairs.length > 0 then
    let allSame := allSameLineNodes (nodePairs.map Prod.fst)
    let str2 := str1 ++ ">"
    let str3 := str2 ++ renderContent opts allSame none nodePairs
    let str4 := if opts.pretty && !allSame then str3 ++ opts.newline else str3
    str4 ++ "</" ++ name ++ ">"
  else
    str1 ++ "/>"

/-- Concatenation of a list of strings. -/
def strConcat : List String → String
  | [] => ""
  | s :: rest => s ++ strConcat rest

/-- Modelled from the spec: the `XmlText` implementation is not under
`src/` (only its declaration).  §4.3: the payload is rendered with `&`,
`<`, `>` escaped to entities. -/
def escapeText : List Char → List Char
  | [] => []
  | c :: rest =>
    (if c = '&' then "&amp;".toList
     else if c = '<' then "&lt;".toList
     else if c = '>' then "&gt;".toList
     else [c]) ++ escapeText rest

mutual

/-- `toString` of each variant.  The element and attribute cases come from
the sources (`XmlElement.toString`, and `XmlCdata.toString` for CDATA);
the remaining leaf shapes are modelled from the spec's rendering table
(§4.3), their implementations not being under `src/`. -/
def toStr (opts : StringOptions) : XmlTree → String
  | .element name cs => elementToStringCore opts name (renderChildren opts cs)
  | .attribute name vs =>
      name ++ "=\"" ++ strConcat ((renderChildren opts vs).map Prod.snd) ++ "\""
  | .text t => String.mk (escapeText t.toList)
  | .cdata d => "<![CDATA[" ++ d ++ "]]>"
  | .comment c => "<!--" ++ c ++ "-->"
  | .charRef cp hex =>
      if hex then "&#x" ++ String.mk (Nat.toDigits 16 cp) ++ ";"
      else "&#" ++ Nat.repr cp ++ ";"
  | .entityRef n => "&" ++ n ++ ";"
  | .procInst target content =>
      "<?" ++ target ++
        (match content with
         | some c => " " ++ c
         | none => "") ++ "?>"
  | .dtdEntity t => "<!ENTITY " ++ t ++ ">"

/-- Each child paired with its rendering (the loop bodies call
`child.toString(options)` as they go). -/
def renderChildren (opts : StringOptions) : List XmlTree → List (XmlTree × String)
  | [] => []
  | c :: cs => (c, toStr opts c) :: renderChildren opts cs

end

/-- Modelled from the spec: the validator source (`validate`) is not under
`src/`.  §4.4: every code point must lie in the legal XML `Char` ranges
(tab, LF, CR, 0x20–0xD7FF, 0xE000–0xFFFD, 0x10000–0x10FFFF). -/
def isXmlChar (c : Char) : Bool :=
  let n := c.toNat
  n = 0x9 || n = 0xA || n = 0xD || (0x20 ≤ n && n ≤ 0xD7FF) ||
    (0xE000 ≤ n && n ≤ 0xFFFD) || (0x10000 ≤ n && n ≤ 0x10FFFF)

/-- Modelled from the spec: `validateChar` of the missing validator
source. -/
def validateChar (s : String) : Bool := s.toList.all isXmlChar

/-- Modelled from the spec (§4.4): a Name starts with a letter, underscore
or colon.  (The spec does not enumerate the W3C letter tables; letters are
taken as the alphabetic characters.) -/
def isNameStartChar (c : Char) : Bool := c.isAlpha || c = '_' || c = ':'

/-- Modelled from the spec (§4.4): name characters are letters, digits,
`.`, `-`, `_`, `:` (the combining/extender classes are not enumerated by
the spec). -/
def isNameChar (c : Char) : Bool :=
  isNameStartChar c || c.isDigit || c = '.' || c = '-'

/-- Modelled from the spec: `validateName` of the missing validator
source: the XML `Name` production. -/
def validateName (s : String) : Bool :=
  match s.toList with
  | [] => false
  | c :: rest => isNameStartChar c && rest.all isNameChar

/-- Does the character list contain `pat` as a contiguous substring? -/
def hasSub (pat : List Char) : List Char → Bool
  | [] => listStartsWith pat []
  | c :: rest => listStartsWith pat (c :: rest) || hasSub pat rest

/-- The `XmlCdata` constructor / `data` setter (from source): reject data
containing characters not allowed in XML, then data containing the string
`]]>`; both are `InvalidCharacterData` conditions (§7). -/
def mkCdata (data : String) : Except Err XmlTree :=
  if !validateChar data then Except.error Err.invalidCharacterData
  else if hasSub ("]]>".toList) data.toList then
    Except.error Err.invalidCharacterData
  else Except.ok (XmlTree.cdata data)

/-- The `XmlElement` constructor / `name` setter (from source): reject
names failing `validateName` with `InvalidName`. -/
def mkElement (name : String) : Except Err XmlTree :=
  if !validateName name then Except.error Err.invalidName
  else Except.ok (XmlTree.element name [])

/-- Modelled from the spec: the `XmlDtdEntity` implementation is not under
`src/` (only its tests).  §8: construction with a string violating the
Name grammar fails with `InvalidName`. -/
def mkDtdEntity (name : String) : Except Err XmlTree :=
  if !validateName name then Except.error Err.invalidName
  else Except.ok (XmlTree.dtdEntity name)

/-- Modelled from the spec: `XmlEntityRef` wraps a validated XML Name
(§3). -/
def mkEntityRef (name : String) : Except Err XmlTree :=
  if !validateName name then Except.error Err.invalidName
  else Except.ok (XmlTree.entityRef name)

/-- The value variants accepted as `XmlAttribute` children (§4.3). -/
def allowedAttrValueNode : XmlTree → Bool
  | .text _ => true
  | .charRef _ _ => true
  | .entityRef _ => true
  | _ => false

/-- Modelled from the spec: `XmlAttribute` constructor: a validated XML
Name plus one or more value nodes of the allowed variants (§3, §4.3). -/
def mkAttributeTree (name : String) (value : List XmlTree) : Except Err XmlTree :=
  if !validateName name then Except.error Err.invalidName
  else if value.isEmpty then Except.error Err.invalidArgument
  else if !value.all allowedAttrValueNode then Except.error Err.invalidArgument
  else Except.ok (XmlTree.attribute name value)

/-- Modelled from the spec: `XmlProcInst` constructor: target is a
validated Name that must not equal `xml` case-insensitively; content must
not contain `?>` nor illegal characters (§3, §4.4, §7: the reserved-target
ban is an `InvalidCharacterData` condition). -/
def mkProcInst (target : String) (content : Option String) : Except Err XmlTree :=
  if !validateName target then Except.error Err.invalidName
  else if target.toList.map Char.toLower = "xml".toList then
    Except.error Err.invalidCharacterData
  else
    match content with
    | none => Except.ok (XmlTree.procInst target none)
    | some c =>
      if !validateChar c then Except.error Err.invalidCharacterData
      else if hasSub ("?>".toList) c.toList then
        Except.error Err.invalidCharacterData
      else Except.ok (XmlTree.procInst target (some c))

/-- The variants an element accepts as children, on the tree view. -/
def allowedElemChildNode : XmlTree → Bool
  | .dtdEntity _ => false
  | _ => true

/-- The names of the attribute children, in order. -/
def attrNames : List XmlTree → List String
  | [] => []
  | .attribute n _ :: rest => n :: attrNames rest
  | _ :: rest => attrNames rest

def uniqueNames : List String → Bool
  | [] => true
  | n :: rest => !(rest.contains n) && uniqueNames rest

def isXmlCharCode (cp : Nat) : Bool :=
  cp = 0x9 || cp = 0xA || cp = 0xD || (0x20 ≤ cp && cp ≤ 0xD7FF) ||
    (0xE000 ≤ cp && cp ≤ 0xFFFD) || (0x10000 ≤ cp && cp ≤ 0x10FFFF)

def endsWithDash (c : String) : Bool :=
  match c.toList.getLast? with
  | some ch => ch = '-'
  | none => false

mutual

/-- A tree every node of which passed its construction-time validation:
valid names, legal character payloads, variant-specific syntactic bans,
per-variant child restrictions, and unique attribute names (the conditions
enforced by the constructors, setters and `insertChild` overrides). -/
def wfTree : XmlTree → Bool
  | .element name cs =>
      validateName name && cs.all allowedElemChildNode &&
        uniqueNames (attrNames cs) && wfForest cs
  | .attribute name vs =>
      validateName name && !vs.isEmpty && vs.all allowedAttrValueNode &&
        wfForest vs
  | .text t => validateChar t
  | .cdata d => validateChar d && !hasSub ("]]>".toList) d.toList
  | .comment c =>
      validateChar c && !hasSub ("--".toList) c.toList && !endsWithDash c
  | .charRef cp _ => isXmlCharCode cp
  | .entityRef n => validateName n
  | .procInst t c =>
      validateName t && !(t.toList.map Char.toLower = "xml".toList) &&
        (match c with
         | none => true
         | some cc => validateChar cc && !hasSub ("?>".toList) cc.toList)
  | .dtdEntity t => validateName t

def wfForest : List XmlTree → Bool
  | [] => true
  | c :: cs => wfTree c && wfForest cs

end

mutual

/-- The serializer with an error-channel codomain: each case mirrors the
corresponding `toString` implementation, whose bodies contain no
validation and no throw site (the only throwing `toString`, the abstract
base class's, is unreachable for the closed variant set), so no case
constructs an error. -/
def toStrE (opts : StringOptions) : XmlTree → Except Err String
  | .element name cs => do
      let pairs ← renderChildrenE opts cs
      pure (elementToStringCore opts name pairs)
  | .attribute name vs => do
      let pairs ← renderChildrenE opts vs
      pure (name ++ "=\"" ++ strConcat (pairs.map Prod.snd) ++ "\"")
  | .text t => pure (String.mk (escapeText t.toList))
  | .cdata d => pure ("<![CDATA[" ++ d ++ "]]>")
  | .comment c => pure ("<!--" ++ c ++ "-->")
  | .charRef cp hex =>
      pure (if hex then "&#x" ++ String.mk (Nat.toDigits 16 cp) ++ ";"
        else "&#" ++ Nat.repr cp ++ ";")
  | .entityRef n => pure ("&" ++ n ++ ";")
  | .procInst target content =>
      pure ("<?" ++ target ++
        (match content with
         | some c => " " ++ c
         | none => "") ++ "?>")
  | .dtdEntity t => pure ("<!ENTITY " ++ t ++ ">")

def renderChildrenE (opts : StringOptions) :
    List XmlTree → Except Err (List (XmlTree × String))
  | [] => pure []
  | c :: cs => do
      let s ← toStrE opts c
      let rest ← renderChildrenE opts cs
      pure ((c, s) :: rest)

end

/-- The line-break policy in the spec's words: an inline-compatible node
is a Character-Reference, Entity-Reference, or Text node. -/
def specInlineCompatible : XmlTree → Bool
  | .charRef _ _ => true
  | .entityRef _ => true
  | .text _ => true
  | _ => false

/-- The spec's per-node rule for the not-all-inline-compatible case:
before each content node insert a newline and indent the node's rendering
by one unit — unless both the node and its immediate predecessor are
inline-compatible, in which case they continue on the same line. -/
def specBreakRun (opts : StringOptions) :
    Option XmlTree → List (XmlTree × String) → String
  | _, [] => ""
  | prev, (t, s) :: rest =>
    (if (match prev with
         | some p => specInlineCompatible p && specInlineCompatible t
         | none => false) then
      s
    else opts.newline ++ indentLines opts s) ++ specBreakRun opts (some t) rest

/-- The spec's line-break policy for the rendered content of an element
(pretty mode): if every content node is inline-compatible, the renderings
are concatenated with no breaks or indentation; otherwise the per-node
break rule applies and a trailing newline precedes the closing tag. -/
def specPrettyContent (opts : StringOptions)
    (pairs : List (XmlTree × String)) : String :=
  if (pairs.map Prod.fst).all specInlineCompatible then
    strConcat (pairs.map Prod.snd)
  else
    specBreakRun opts none pairs ++ opts.newline

/-- The value argument of `XmlElement.attribute`: each entry of an array
value is a string or a node reference. -/
inductive AttrVal where
  | str (s : String)
  | node (id : Nat)
deriving DecidableEq, Repr

/-- The overall shape of the value argument: a single string or node, or
an array of strings and nodes. -/
inductive AttrValue where
  | one (v : AttrVal)
  | arr (xs : List AttrVal)
deriving DecidableEq, Repr

/-- Modelled from the spec: the `XmlText` constructor (implementation not
under `src/`): validates the payload characters (§4.4) and allocates the
node. -/
def newXmlText (s : Store) (next : Nat) (t : String) :
    Except Err (Store × Nat × Nat) :=
  if !validateChar t then Except.error Err.invalidCharacterData
  else
    Except.ok
      (upd s next (fun _ =>
        { tag := Tag.text, name := "", parent := none, children := [] }),
       next + 1, next)

/-- The array-normalization loop of `XmlElement.attribute` (source):
each string entry is replaced, in place and in order, by a freshly
constructed `XmlText` node; a failing construction aborts the loop with
the current and later entries untouched.  Returns the mutated array
alongside the heap outcome. -/
def normalizeArr (s : Store) (next : Nat) :
    List AttrVal → List AttrVal × Except Err (Store × Nat)
  | [] => ([], Except.ok (s, next))
  | AttrVal.node i :: rest =>
      let r := normalizeArr s next rest
      (AttrVal.node i :: r.1, r.2)
  | AttrVal.str t :: rest =>
      match newXmlText s next t with
      | Except.error e => (AttrVal.str t :: rest, Except.error e)
      | Except.ok (s1, n1, id) =>
          let r := normalizeArr s1 n1 rest
          (AttrVal.node id :: r.1, r.2)

/-- The string/array/node dispatch at the top of `XmlElement.attribute`:
a single string is wrapped in an `XmlText` node, an array is normalized in
place, a node passes through.  The first component is the value as left
behind by the loop — for an array argument this is the caller's array
object. -/
def normalizeValue (s : Store) (next : Nat) :
    AttrValue → AttrValue × Except Err (Store × Nat)
  | AttrValue.one (AttrVal.str t) =>
      match newXmlText s next t with
      | Except.error e => (AttrValue.one (AttrVal.str t), Except.error e)
      | Except.ok (s1, n1, id) =>
          (AttrValue.one (AttrVal.node id), Except.ok (s1, n1))
  | AttrValue.one (AttrVal.node i) =>
      (AttrValue.one (AttrVal.node i), Except.ok (s, next))
  | AttrValue.arr xs =>
      let r := normalizeArr s next xs
      (AttrValue.arr r.1, r.2)

/-- The node ids of a normalized attribute value; `none` when a raw string
remains (not a node, rejected by the attribute constructor). -/
def valueIds : AttrValue → Option (List Nat)
  | AttrValue.one (AttrVal.node i) => some [i]
  | AttrValue.one (AttrVal.str _) => none
  | AttrValue.arr xs =>
      if xs.all (fun v => match v with
          | AttrVal.node _ => true
          | AttrVal.str _ => false) then
        some (xs.map (fun v => match v with
          | AttrVal.node i => i
          | AttrVal.str _ => 0))
      else none

/-- Insert each value node into the freshly built attribute, via the
attribute's (dispatched) `insertChild`. -/
def insertValueNodes (s : Store) (attrId : Nat) :
    List Nat → Except Err Store
  | [] => Except.ok s
  | i :: rest =>
      match insertChildD s attrId i none with
      | Except.error e => Except.error e
      | Except.ok (s1, _) => insertValueNodes s1 attrId rest

/-- Modelled from the spec: the `XmlAttribute` constructor (not under
`src/`): a validated XML Name plus one or more value nodes, inserted as
the attribute's children (§3, §4.3). -/
def newXmlAttribute (s : Store) (next : Nat) (name : String)
    (value : AttrValue) : Except Err (Store × Nat × Nat) :=
  if !validateName name then Except.error Err.invalidName
  else
    match valueIds value with
    | none => Except.error Err.invalidArgument
    | some [] => Except.error Err.invalidArgument
    | some ids =>
        let s1 := upd s next (fun _ =>
          { tag := Tag.attribute, name := name, parent := none,
            children := [] })
        match insertValueNodes s1 next ids with
        | Except.error e => Except.error e
        | Except.ok s2 => Except.ok (s2, next + 1, next)

/-- `XmlElement.attribute` (from source): normalize the value (mutating a
caller array in place), construct the `XmlAttribute`, insert it via the
element's `insertChild` override, and return it. -/
def XmlElement.attribute (s : Store) (next : Nat) (self : Nat)
    (name : String) (value : AttrValue) (index : Option Nat) :
    AttrValue × Except Err (Store × Nat × Nat) :=
  let n := normalizeValue s next value
  match n.2 with
  | Except.error e => (n.1, Except.error e)
  | Except.ok (s1, next1) =>
      match newXmlAttribute s1 next1 name n.1 with
      | Except.error e => (n.1, Except.error e)
      | Except.ok (s2, next2, attrId) =>
          match insertChildD s2 self attrId index with
          | Except.error e => (n.1, Except.error e)
          | Except.ok (s3, _) => (n.1, Except.ok (s3, next2, attrId))

/-- The expected array after a fully successful normalization: string
entries replaced by text-node references allocated sequentially from
`next`. -/
def replacedArr (next : Nat) : List AttrVal → List AttrVal
  | [] => []
  | AttrVal.node i :: rest => AttrVal.node i :: replacedArr next rest
  | AttrVal.str _ :: rest => AttrVal.node next :: replacedArr (next + 1) rest

def isNodeVal : AttrVal → Bool
  | AttrVal.node _ => true
  | AttrVal.str _ => false

theorem upd_apply (s : Store) (i : Nat) (f : NodeData → NodeData) (j : Nat) :
    upd s i f j = if j = i then f (s j) else s j := rfl

theorem rc_fst_tag (s : Store) (self node j : Nat) :
    ((XmlNode.removeChild s self node).1 j).tag = (s j).tag := by
  unfold XmlNode.removeChild
  split
  · simp only [upd_apply]
    split_ifs <;> rfl
  · rfl

theorem rc_fst_parent (s : Store) (self node j : Nat)
    (h : node ∈ (s self).children) :
    ((XmlNode.removeChild s self node).1 j).parent =
      if j = node then none else (s j).parent := by
  unfold XmlNode.removeChild
  simp only [if_pos h, upd_apply]
  split_ifs <;> simp_all

theorem rc_fst_children (s : Store) (self node j : Nat)
    (h : node ∈ (s self).children) :
    ((XmlNode.removeChild s self node).1 j).children =
      if j = self then (s self).children.erase node else (s j).children := by
  unfold XmlNode.removeChild
  simp only [if_pos h, upd_apply]
  split_ifs <;> simp_all

theorem rc_fst_of_not_mem (s : Store) (self node : Nat)
    (h : node ∉ (s self).children) :
    (XmlNode.removeChild s self node).1 = s := by
  unfold XmlNode.removeChild
  simp [h]

theorem afterIns_tag (s1 : Store) (self node idx j : Nat) :
    (afterIns s1 self node idx j).tag = (s1 j).tag := by
  unfold afterIns
  simp only [upd_apply]
  split_ifs <;> rfl

theorem afterIns_parent (s1 : Store) (self node idx j : Nat) :
    (afterIns s1 self node idx j).parent =
      if j = node then some self else (s1 j).parent := by
  unfold afterIns
  simp only [upd_apply]
  split_ifs <;> simp_all

theorem afterIns_children (s1 : Store) (self node idx j : Nat) :
    (afterIns s1 self node idx j).children =
      if j = self then ((s1 self).children).insertIdx idx node
      else (s1 j).children := by
  unfold afterIns
  simp only [upd_apply]
  split_ifs <;> simp_all

/-- Unfolding of the base-class insertion into its outcome cases. -/
theorem insertChild_unfold (s : Store) (self node : Nat) (index : Option Nat) :
    XmlNode.insertChild s self node index =
      (if index.getD (s self).children.length > (s self).children.length then
        Except.error Err.invalidIndex
      else if node ∈ (s self).children then Except.ok (s, none)
      else
        match (s node).parent with
        | none =>
            Except.ok
              (afterIns s self node (index.getD (s self).children.length),
               some node)
        | some p =>
            if canHaveChildren (s p).tag then
              Except.ok
                (afterIns (XmlNode.removeChild s p node).1 self node
                  (index.getD (s self).children.length), some node)
            else Except.error Err.unsupportedOperation) := by
  unfold XmlNode.insertChild removeChildD afterIns
  by_cases h1 : index.getD (s self).children.length > (s self).children.length
  · simp [h1]
  · simp only [if_neg h1]
    by_cases h2 : node ∈ (s self).children
    · simp [h2]
    · simp only [if_neg h2]
      rcases hp : (s node).parent with _ | p
      · rfl
      · by_cases h3 : canHaveChildren (s p).tag <;>
          simp [h3, Except.bind, bind]

/-- `removeChild` preserves the consistency invariant. -/
theorem consistent_removeChild (s : Store) (self node : Nat)
    (hc : Consistent s) : Consistent (XmlNode.removeChild s self node).1 := by
  obtain ⟨hiff, hnd, hleaf⟩ := hc
  by_cases hmem : node ∈ (s self).children
  · refine ⟨?_, ?_, ?_⟩
    · intro n p
      rw [rc_fst_parent s self node n hmem, rc_fst_children s self node p hmem]
      by_cases hn : n = node
      · rw [if_pos hn]
        constructor
        · intro h
          exact absurd h (by simp)
        · intro h
          by_cases hp : p = self
          · rw [if_pos hp, hn] at h
            exact absurd h (hnd self).not_mem_erase
          · rw [if_neg hp] at h
            have h1 : (s n).parent = some p := (hiff n p).mpr h
            have h2 : (s n).parent = some self := by
              rw [hn]
              exact (hiff node self).mpr hmem
            rw [h1] at h2
            exact absurd (Option.some.inj h2) hp
      · rw [if_neg hn]
        by_cases hp : p = self
        · rw [if_pos hp, List.mem_erase_of_ne hn, hp]
          exact hiff n self
        · rw [if_neg hp]
          exact hiff n p
    · intro p
      rw [rc_fst_children s self node p hmem]
      by_cases hp : p = self
      · rw [if_pos hp]
        exact (hnd self).erase node
      · rw [if_neg hp]
        exact hnd p
    · intro p hcan
      rw [rc_fst_tag s self node p] at hcan
      rw [rc_fst_children s self node p hmem]
      by_cases hp : p = self
      · exfalso
        rw [hp] at hcan
        rw [hleaf self hcan] at hmem
        exact absurd hmem (by simp)
      · rw [if_neg hp]
        exact hleaf p hcan
  · rw [rc_fst_of_not_mem s self node hmem]
    exact ⟨hiff, hnd, hleaf⟩

/-- `afterIns` preserves the consistency invariant when the node currently
has no parent and the insertion index is within bounds. -/
theorem consistent_afterIns (s1 : Store) (self node idx : Nat)
    (hc : Consistent s1)
    (hpar : (s1 node).parent = none)
    (hcan : canHaveChildren (s1 self).tag = true)
    (hidx : idx ≤ (s1 self).children.length) :
    Consistent (afterIns s1 self node idx) := by
  obtain ⟨hiff, hnd, hleaf⟩ := hc
  have hnomem : ∀ q : Nat, node ∉ (s1 q).children := by
    intro q h
    have h2 := (hiff node q).mpr h
    rw [hpar] at h2
    exact Option.noConfusion h2
  refine ⟨?_, ?_, ?_⟩
  · intro n p
    rw [afterIns_parent, afterIns_children]
    by_cases hn : n = node
    · rw [if_pos hn]
      constructor
      · intro h
        have hp : p = self := (Option.some.inj h).symm
        rw [if_pos hp, hn]
        exact (List.mem_insertIdx hidx).mpr (Or.inl rfl)
      · intro h
        by_cases hp : p = self
        · rw [hp]
        · rw [if_neg hp, hn] at h
          exact absurd h (hnomem p)
    · rw [if_neg hn]
      by_cases hp : p = self
      · rw [if_pos hp, List.mem_insertIdx hidx, hp]
        simp only [hn, false_or]
        exact hiff n self
      · rw [if_neg hp]
        exact hiff n p
  · intro p
    rw [afterIns_children]
    by_cases hp : p = self
    · rw [if_pos hp]
      have hperm : List.Perm ((s1 self).children.insertIdx idx node)
          (node :: (s1 self).children) := List.perm_insertIdx node _ hidx
      rw [hperm.nodup_iff]
      exact List.nodup_cons.mpr ⟨hnomem self, hnd self⟩
    · rw [if_neg hp]
      exact hnd p
  · intro p hcantag
    rw [afterIns_tag] at hcantag
    rw [afterIns_children]
    by_cases hp : p = self
    · exfalso
      rw [hp, hcan] at hcantag
      exact Bool.noConfusion hcantag
    · rw [if_neg hp]
      exact hleaf p hcantag

/-- Success of the base-class insertion preserves consistency, provided the
receiver is a variant that permits children. -/
theorem consistent_insertChildBase (s : Store) (self node : Nat)
    (index : Option Nat) (s' : Store) (r : Option Nat)
    (hc : Consistent s) (hcan : canHaveChildren (s self).tag = true)
    (h : XmlNode.insertChild s self node index = Except.ok (s', r)) :
    Consistent s' := by
  rw [insertChild_unfold] at h
  split at h
  · exact absurd h (by simp)
  · split at h
    · have hs : s = s' := congrArg Prod.fst (Except.ok.inj h)
      rw [← hs]
      exact hc
    · rename_i h1 h2
      split at h
      · rename_i hp
        have hs : _ = s' := congrArg Prod.fst (Except.ok.inj h)
        rw [← hs]
        exact consistent_afterIns s self node _ hc hp hcan (Nat.le_of_not_lt h1)
      · rename_i p hp
        have hmemp : node ∈ (s p).children := (hc.1 node p).mp hp
        have hcanp : canHaveChildren (s p).tag = true := by
          by_contra hb
          have hpe : (s p).children = [] := hc.2.2 p (by simpa using hb)
          rw [hpe] at hmemp
          exact absurd hmemp (by simp)
        rw [if_pos hcanp] at h
        have hs : _ = s' := congrArg Prod.fst (Except.ok.inj h)
        rw [← hs]
        have hpself : p ≠ self := by
          intro he
          rw [he] at hmemp
          exact h2 hmemp
        refine consistent_afterIns _ self node _
          (consistent_removeChild s p node ⟨hc.1, hc.2.1, hc.2.2⟩) ?_ ?_ ?_
        · rw [rc_fst_parent s p node node hmemp, if_pos rfl]
        · rw [rc_fst_tag]
          exact hcan
        · rw [rc_fst_children s p node self hmemp,
            if_neg (fun he => hpself he.symm)]
          exact Nat.le_of_not_lt h1

/-- A successful dispatched `insertChild` happens on a children-permitting
variant and coincides with a successful base-class insertion. -/
theorem insertChildD_ok (s : Store) (self node : Nat) (index : Option Nat)
    (x : Store × Option Nat)
    (h : insertChildD s self node index = Except.ok x) :
    canHaveChildren (s self).tag = true ∧
      XmlNode.insertChild s self node index = Except.ok x := by
  unfold insertChildD at h
  split at h
  · rename_i htag
    refine ⟨by rw [htag]; rfl, ?_⟩
    unfold XmlElement.insertChild at h
    split at h
    · exact absurd h (by simp)
    · split at h
      · exact absurd h (by simp)
      · exact h
  · rename_i htag
    refine ⟨by rw [htag]; rfl, ?_⟩
    unfold XmlAttribute.insertChild at h
    split at h
    · exact absurd h (by simp)
    · exact h
  · exact absurd h (by simp)

theorem NodeData.ext' (d1 d2 : NodeData) (h1 : d1.tag = d2.tag)
    (h2 : d1.name = d2.name) (h3 : d1.parent = d2.parent)
    (h4 : d1.children = d2.children) : d1 = d2 := by
  cases d1
  cases d2
  simp_all

/-- On a duplicate-free child sequence, removal at an index coincides with
removal of the node stored at that index. -/
theorem removeChildAtIndex_eq (s : Store) (self index : Nat)
    (hnd : ((s self).children).Nodup)
    (hlt : index < (s self).children.length) :
    XmlNode.removeChildAtIndex s self index =
      Except.ok ((XmlNode.removeChild s self
          ((s self).children.get ⟨index, hlt⟩)).1,
        (s self).children.get ⟨index, hlt⟩) := by
  have hmem : (s self).children.get ⟨index, hlt⟩ ∈ (s self).children :=
    List.get_mem _ _ _
  have he : ((s self).children).erase ((s self).children.get ⟨index, hlt⟩)
      = ((s self).children).eraseIdx index := by
    simpa using hnd.erase_getElem index hlt
  unfold XmlNode.removeChildAtIndex XmlNode.removeChild
  rw [dif_pos hlt, if_pos hmem]
  simp only [Except.ok.injEq, Prod.mk.injEq]
  refine ⟨?_, trivial⟩
  funext j
  simp only [upd_apply]
  split_ifs <;> apply NodeData.ext' <;> simp_all

/-- A successful dispatched `removeChild` preserves consistency. -/
theorem consistent_removeChildD (s : Store) (self node : Nat)
    (x : Store × Bool) (hc : Consistent s)
    (h : removeChildD s self node = Except.ok x) : Consistent x.1 := by
  unfold removeChildD at h
  split at h
  · exact (Except.ok.inj h) ▸ consistent_removeChild s self node hc
  · exact absurd h (by simp)

/-- A successful dispatched `removeChildAtIndex` preserves consistency. -/
theorem consistent_removeChildAtIndexD (s : Store) (self index : Nat)
    (x : Store × Nat) (hc : Consistent s)
    (h : removeChildAtIndexD s self index = Except.ok x) : Consistent x.1 := by
  unfold removeChildAtIndexD at h
  split at h
  · by_cases hlt : index < (s self).children.length
    · rw [removeChildAtIndex_eq s self index (hc.2.1 self) hlt] at h
      have hs : _ = x.1 := congrArg Prod.fst (Except.ok.inj h)
      rw [← hs]
      exact consistent_removeChild s self _ hc
    · unfold XmlNode.removeChildAtIndex at h
      rw [dif_neg hlt] at h
      exact absurd h (by simp)
  · exact absurd h (by simp)

/-- A successful `remove` preserves consistency. -/
theorem consistent_remove (s : Store) (self : Nat)
    (x : Store × Option Nat) (hc : Consistent s)
    (h : XmlNode.remove s self = Except.ok x) : Consistent x.1 := by
  unfold XmlNode.remove at h
  split at h
  · rename_i p hp
    unfold removeChildD at h
    split at h
    · simp only [Except.bind, bind] at h
      have hs : _ = x.1 := congrArg Prod.fst (Except.ok.inj h)
      rw [← hs]
      exact consistent_removeChild s p self hc
    · simp [Except.bind, bind] at h
  · have hs : _ = x.1 := congrArg Prod.fst (Except.ok.inj h)
    rw [← hs]
    exact hc

/-- The move semantics of a successful dispatched insertion of a node whose
current parent is a different node: removed from the old parent's sequence
exactly once, added to the new parent's sequence exactly once, and the
back-reference points to the new parent. -/
theorem insertChild_move (s : Store) (self node p : Nat) (index : Option Nat)
    (s' : Store) (r : Option Nat) (hc : Consistent s)
    (hp : (s node).parent = some p) (hps : p ≠ self)
    (h : insertChildD s self node index = Except.ok (s', r)) :
    r = some node ∧ (s' node).parent = some self ∧
      ((s p).children.count node = 1 ∧ (s' p).children.count node = 0) ∧
      ((s self).children.count node = 0 ∧ (s' self).children.count node = 1) := by
  obtain ⟨hcan, hbase⟩ := insertChildD_ok s self node index (s', r) h
  have hmemp : node ∈ (s p).children := (hc.1 node p).mp hp
  have hnself : node ∉ (s self).children := by
    intro hm
    have h2 := (hc.1 node self).mpr hm
    rw [hp] at h2
    exact hps (Option.some.inj h2)
  have hcanp : canHaveChildren (s p).tag = true := by
    by_contra hb
    have hpe : (s p).children = [] := hc.2.2 p (by simpa using hb)
    rw [hpe] at hmemp
    exact absurd hmemp (by simp)
  rw [insertChild_unfold, if_neg hnself] at hbase
  split at hbase
  · exact absurd hbase (by simp)
  · rename_i h1
    split at hbase
    · rename_i hpn
      rw [hpn] at hp
      exact absurd hp (by simp)
    · rename_i p' hp'
      rw [hp'] at hp
      have hpp : p' = p := Option.some.inj hp
      rw [hpp, if_pos hcanp] at hbase
      have hs : _ = s' := congrArg Prod.fst (Except.ok.inj hbase)
      have hr : some node = r := congrArg Prod.snd (Except.ok.inj hbase)
      have hidx : index.getD (s self).children.length ≤
          (s self).children.length := Nat.le_of_not_lt h1
      have hcount1 : (s p).children.count node = 1 := by
        have hle := List.nodup_iff_count_le_one.mp (hc.2.1 p) node
        have hpos := List.count_pos_iff.mpr hmemp
        omega
      refine ⟨hr.symm, ?_, ⟨hcount1, ?_⟩, ?_, ?_⟩
      · rw [← hs, afterIns_parent, if_pos rfl]
      · rw [← hs, afterIns_children, if_neg hps,
          rc_fst_children s p node p hmemp, if_pos rfl,
          List.count_erase_self, hcount1]
      · exact List.count_eq_zero.mpr hnself
      · rw [← hs, afterIns_children, if_pos rfl,
          rc_fst_children s p node self hmemp,
          if_neg (fun he => hps he.symm)]
        have hperm : List.Perm
            (((s self).children).insertIdx
              (index.getD (s self).children.length) node)
            (node :: (s self).children) :=
          List.perm_insertIdx node _ hidx
        rw [hperm.count_eq, List.count_cons_self,
          List.count_eq_zero.mpr hnself]

theorem mvStore_consistent : Consistent mvStore := by
  refine ⟨?_, ?_, ?_⟩
  · intro n p
    rcases n with _ | _ | _ | n <;> rcases p with _ | _ | _ | p <;>
      simp [mvStore]
  · intro p
    rcases p with _ | _ | _ | p <;> simp [mvStore]
  · intro p
    rcases p with _ | _ | _ | p <;> simp [mvStore, canHaveChildren]

/-- C2 counterexample: the claim "calling `insertChild` on a node that is
already a direct child is a no-op returning `none`" fails when the receiver
is an `XmlElement` and the node an `XmlAttribute`.  In `exStore`,
attribute `1` is a direct child of element `0` and index `0` is valid, yet
`insertChild` throws `DuplicateAttribute`: the duplicate-name scan of the
element override runs before the already-a-child check of the base class,
and the scan matches the node itself. -/
theorem c2_counterexample :
    (exStore 1).parent = some 0 ∧ 1 ∈ (exStore 0).children ∧
      (exStore 0).tag = Tag.element ∧ (exStore 1).tag = Tag.attribute ∧
      insertChildD exStore 0 1 (some 0) = Except.error Err.duplicateAttribute ∧
      insertChildD exStore 0 1 (some 0) ≠ Except.ok (exStore, none) := by
  refine ⟨rfl, by decide, rfl, rfl, rfl, ?_⟩
  intro hco
  rw [show insertChildD exStore 0 1 (some 0)
      = Except.error Err.duplicateAttribute from rfl] at hco
  exact Except.noConfusion hco

/-- C2 (amended): for a container `P` (Element, or Attribute) and a node
`n` that is already a direct child of `P` (hence of a variant allowed as a
child of `P`), `P.insertChild(n, i)` at a valid index `i` is a no-op that
returns `none` and leaves the heap unchanged — except when `P` is an
Element and `n` an Attribute, in which case the duplicate-name scan (which
runs before the no-op check and matches `n` itself) throws
`DuplicateAttribute`, still leaving the heap unchanged. -/
theorem c2_insert_existing_child (s : Store) (self node : Nat)
    (idx : Option Nat)
    (hall : allowedChildOf (s self).tag (s node).tag = true)
    (hmem : node ∈ (s self).children)
    (hidx : idx.getD (s self).children.length ≤ (s self).children.length) :
    insertChildD s self node idx =
      if (s self).tag = Tag.element ∧ (s node).tag = Tag.attribute then
        Except.error Err.duplicateAttribute
      else
        Except.ok (s, none) := by
  have hbase : XmlNode.insertChild s self node idx = Except.ok (s, none) := by
    rw [insertChild_unfold, if_neg (Nat.not_lt.mpr hidx), if_pos hmem]
  unfold insertChildD
  cases htag : (s self).tag
  · rw [htag] at hall
    show XmlElement.insertChild s self node idx = _
    unfold XmlElement.insertChild
    rw [if_neg (by simp [show allowedXmlElementChild (s node).tag = true
      from hall])]
    by_cases hat : (s node).tag = Tag.attribute
    · have hscan : (((s self).children.filter
          (fun c => (s c).tag = Tag.attribute)).any
          (fun c => (s c).name = (s node).name)) = true :=
        List.any_eq_true.mpr ⟨node,
          List.mem_filter.mpr ⟨hmem, by simp [hat]⟩, by simp⟩
      rw [if_pos (by simp [hat, hscan]), if_pos ⟨rfl, hat⟩]
    · rw [if_neg (by simp [hat]), if_neg (fun hco => hat hco.2)]
      exact hbase
  · rw [htag] at hall
    show XmlAttribute.insertChild s self node idx = _
    unfold XmlAttribute.insertChild
    rw [if_neg (by simp [show allowedXmlAttributeChild (s node).tag = true
      from hall]),
      if_neg (fun hco => Tag.noConfusion hco.1)]
    exact hbase
  all_goals (rw [htag] at hall; simp [allowedChildOf] at hall)

/-- C2 witness: in `exStore`, element `2` is already a direct child of
element `0`, and re-inserting it at index `0` is a no-op returning `none`
with the heap unchanged. -/
theorem c2_witness :
    insertChildD exStore 0 2 (some 0) = Except.ok (exStore, none) := by
  have h := c2_insert_existing_child exStore 0 2 (some 0) (by decide)
    (by decide) (by decide)
  rw [if_neg (by decide)] at h
  exact h

/-- C3: every successful `insertChild`, `removeChild`,
`removeChildAtIndex`, and `remove` preserves the parent/children
consistency invariant, and a successful insertion of a node whose current
parent is a different node removes it from the old parent's sequence
exactly once (count 1 before, 0 after), adds it to the new parent's
sequence exactly once (count 0 before, 1 after), and redirects the
back-reference to the new parent. -/
theorem c3_consistency_and_move :
    (∀ (s : Store) (self node : Nat) (index : Option Nat)
        (x : Store × Option Nat),
        Consistent s → insertChildD s self node index = Except.ok x →
        Consistent x.1) ∧
    (∀ (s : Store) (self node : Nat) (x : Store × Bool),
        Consistent s → removeChildD s self node = Except.ok x →
        Consistent x.1) ∧
    (∀ (s : Store) (self index : Nat) (x : Store × Nat),
        Consistent s → removeChildAtIndexD s self index = Except.ok x →
        Consistent x.1) ∧
    (∀ (s : Store) (self : Nat) (x : Store × Option Nat),
        Consistent s → XmlNode.remove s self = Except.ok x →
        Consistent x.1) ∧
    (∀ (s : Store) (self node p : Nat) (index : Option Nat) (s' : Store)
        (r : Option Nat),
        Consistent s → (s node).parent = some p → p ≠ self →
        insertChildD s self node index = Except.ok (s', r) →
        r = some node ∧ (s' node).parent = some self ∧
          ((s p).children.count node = 1 ∧ (s' p).children.count node = 0) ∧
          ((s self).children.count node = 0 ∧
            (s' self).children.count node = 1)) := by
  refine ⟨?_, ?_, ?_, ?_, ?_⟩
  · intro s self node index x hc h
    obtain ⟨hcan, hbase⟩ := insertChildD_ok s self node index x h
    obtain ⟨x1, x2⟩ := x
    exact consistent_insertChildBase s self node index x1 x2 hc hcan hbase
  · intro s self node x hc h
    exact consistent_removeChildD s self node x hc h
  · intro s self index x hc h
    exact consistent_removeChildAtIndexD s self index x hc h
  · intro s self x hc h
    exact consistent_remove s self x hc h
  · intro s self node p index s' r hc hp hps h
    exact insertChild_move s self node p index s' r hc hp hps h

/-- C3 witness: `mvStore` satisfies the invariant, and moving node `2`
from its parent `1` into element `0` exhibits the move semantics. -/
theorem c3_witness :
    Consistent mvStore ∧ (mvStore 2).parent = some 1 ∧
      insertChildD mvStore 0 2 none = Except.ok mvResult ∧
      mvResult.2 = some 2 ∧ (mvResult.1 2).parent = some 0 ∧
      ((mvStore 1).children.count 2 = 1 ∧
        (mvResult.1 1).children.count 2 = 0) ∧
      ((mvStore 0).children.count 2 = 0 ∧
        (mvResult.1 0).children.count 2 = 1) := by
  have heq : insertChildD mvStore 0 2 none
      = Except.ok (mvResult.1, mvResult.2) := rfl
  have h := c3_consistency_and_move.2.2.2.2 mvStore 0 2 1 none mvResult.1
    mvResult.2 mvStore_consistent rfl (by decide) heq
  exact ⟨mvStore_consistent, rfl, heq, h.1, h.2.1, h.2.2.1, h.2.2.2⟩

/-- C5: `XmlElement.insertChild` fails with `InvalidArgument` when the
node's variant is outside the allowed set, and for an allowed variant with
no attribute-name collision it delegates to the base insertion
algorithm. -/
theorem c5_element_child_variants (s : Store) (self node : Nat)
    (idx : Option Nat) (htag : (s self).tag = Tag.element) :
    (allowedXmlElementChild (s node).tag = false →
      insertChildD s self node idx = Except.error Err.invalidArgument) ∧
    (allowedXmlElementChild (s node).tag = true →
      ((s node).tag = Tag.attribute →
        (((s self).children.filter (fun c => (s c).tag = Tag.attribute)).any
          (fun c => (s c).name = (s node).name)) = false) →
      insertChildD s self node idx = XmlNode.insertChild s self node idx) := by
  have hD : insertChildD s self node idx
      = XmlElement.insertChild s self node idx := by
    unfold insertChildD
    rw [htag]
  rw [hD]
  unfold XmlElement.insertChild
  constructor
  · intro hfalse
    rw [if_pos (by simp [hfalse])]
  · intro htrue hscan
    rw [if_neg (by simp [htrue])]
    by_cases hat : (s node).tag = Tag.attribute
    · rw [if_neg (by simp [hat, hscan hat])]
    · rw [if_neg (by simp [hat])]

/-- C5 witness: inserting the DTD entity `3` into element `0` of `exStore`
fails with `InvalidArgument`, while inserting the detached element `4`
coincides with the base insertion algorithm. -/
theorem c5_witness :
    insertChildD exStore 0 3 none = Except.error Err.invalidArgument ∧
      insertChildD exStore 0 4 none = XmlNode.insertChild exStore 0 4 none := by
  have h3 := c5_element_child_variants exStore 0 3 none rfl
  have h4 := c5_element_child_variants exStore 0 4 none rfl
  exact ⟨h3.1 (by decide),
    h4.2 (by decide) (fun hco => absurd hco (by decide))⟩

theorem mkCdata_eq (d : String) :
    mkCdata d =
      if validateChar d = false ∨ hasSub ("]]>".toList) d.toList = true then
        Except.error Err.invalidCharacterData
      else Except.ok (XmlTree.cdata d) := by
  unfold mkCdata
  by_cases h1 : validateChar d = true
  · by_cases h2 : hasSub ("]]>".toList) d.toList = true
    · rw [if_neg (by simp [h1]), if_pos h2, if_pos (Or.inr h2)]
    · rw [if_neg (by simp [h1]), if_neg h2,
        if_neg (by simp [h1]; simpa using h2)]
  · rw [if_pos (by simp [Bool.not_eq_true] at h1 ⊢; exact h1),
      if_pos (Or.inl (by simpa using h1))]

/-- C8: constructing a CDATA node (the constructor assigns through the
`data` setter, so the same conditions govern both) fails with
`InvalidCharacterData` iff the data contains a code point outside the
legal XML Char ranges or contains the substring `]]>`; otherwise the
stored payload is exactly the data and, for every options value,
`toString` returns the data wrapped in `<![CDATA[` … `]]>`. -/
theorem c8_cdata (d : String) :
    (mkCdata d = Except.error Err.invalidCharacterData ↔
      (validateChar d = false ∨ hasSub ("]]>".toList) d.toList = true)) ∧
    (validateChar d = true → hasSub ("]]>".toList) d.toList = false →
      mkCdata d = Except.ok (XmlTree.cdata d) ∧
        ∀ opts : StringOptions,
          toStr opts (XmlTree.cdata d) = "<![CDATA[" ++ d ++ "]]>") := by
  constructor
  · rw [mkCdata_eq]
    split_ifs with hcond
    · exact ⟨fun _ => hcond, fun _ => rfl⟩
    · constructor
      · intro h
        exact absurd h (by simp)
      · intro h
        exact absurd h hcond
  · intro h1 h2
    refine ⟨?_, fun opts => rfl⟩
    rw [mkCdata_eq, if_neg (by simp [h1]; simpa using h2)]

/-- C8 witness: `a]]>b` is rejected; `ab` is accepted, stored exactly,
and rendered as `<![CDATA[ab]]>`. -/
theorem c8_witness :
    mkCdata "a]]>b" = Except.error Err.invalidCharacterData ∧
      mkCdata "ab" = Except.ok (XmlTree.cdata "ab") ∧
      toStr {} (XmlTree.cdata "ab") = "<![CDATA[ab]]>" := by
  have h1 := (c8_cdata "a]]>b").1.mpr (Or.inr (by decide))
  have h2 := (c8_cdata "ab").2 (by decide) (by decide)
  exact ⟨h1, h2.1, h2.2 {}⟩

/-- C7 counterexample: `xml` is a valid XML Name, yet constructing a
Processing-Instruction with target `xml` fails (with
`InvalidCharacterData`, the reserved-target condition of §7), refuting
"for every valid Name string, construction succeeds" for the
Processing-Instruction case. -/
theorem c7_counterexample :
    validateName "xml" = true ∧
      mkProcInst "xml" none = Except.error Err.invalidCharacterData := by
  refine ⟨by decide, ?_⟩
  unfold mkProcInst
  rw [if_neg (by decide), if_pos (by decide)]

/-- C7 (amended): for every string violating the Name grammar,
constructing a DTD-Entity — likewise an Element, Attribute,
Entity-Reference, or Processing-Instruction — fails with `InvalidName`;
for every valid Name string, construction succeeds, except that a
Processing-Instruction additionally rejects a valid-Name target equal to
`xml` (case-insensitively) with `InvalidCharacterData`. -/
theorem c7_name_validation (s : String) (value : List XmlTree)
    (hv1 : value ≠ []) (hv2 : value.all allowedAttrValueNode = true) :
    (mkDtdEntity s = if validateName s then Except.ok (XmlTree.dtdEntity s)
      else Except.error Err.invalidName) ∧
    (mkElement s = if validateName s then Except.ok (XmlTree.element s [])
      else Except.error Err.invalidName) ∧
    (mkEntityRef s = if validateName s then Except.ok (XmlTree.entityRef s)
      else Except.error Err.invalidName) ∧
    (mkAttributeTree s value =
      if validateName s then Except.ok (XmlTree.attribute s value)
      else Except.error Err.invalidName) ∧
    (mkProcInst s none =
      if validateName s then
        (if s.toList.map Char.toLower = "xml".toList then
          Except.error Err.invalidCharacterData
         else Except.ok (XmlTree.procInst s none))
      else Except.error Err.invalidName) := by
  refine ⟨?_, ?_, ?_, ?_, ?_⟩
  · by_cases h : validateName s = true <;> simp [mkDtdEntity, h]
  · by_cases h : validateName s = true <;> simp [mkElement, h]
  · by_cases h : validateName s = true <;> simp [mkEntityRef, h]
  · by_cases h : validateName s = true <;>
      simp [mkAttributeTree, h, hv2, List.isEmpty_iff, hv1]
  · by_cases h : validateName s = true
    · by_cases hx : s.toList.map Char.toLower = "xml".toList <;>
        simp [mkProcInst, h, hx]
    · simp [mkProcInst, h]

/-- C7 witness: `abc` is accepted by the DTD-Entity and Element
constructors; `a b` violates the Name grammar and is rejected with
`InvalidName`. -/
theorem c7_witness :
    mkDtdEntity "abc" = Except.ok (XmlTree.dtdEntity "abc") ∧
      mkDtdEntity "a b" = Except.error Err.invalidName ∧
      mkElement "abc" = Except.ok (XmlTree.element "abc" []) := by
  have h1 := c7_name_validation "abc" [XmlTree.text "v"]
    (fun hco => List.noConfusion hco) (by decide)
  have h2 := c7_name_validation "a b" [XmlTree.text "v"]
    (fun hco => List.noConfusion hco) (by decide)
  refine ⟨?_, ?_, ?_⟩
  · rw [h1.1, if_pos (by decide)]
  · rw [h2.1, if_neg (by decide)]
  · rw [h1.2.1, if_pos (by decide)]

mutual

theorem toStrE_eq (opts : StringOptions) :
    ∀ t : XmlTree, toStrE opts t = Except.ok (toStr opts t)
  | .element name cs => by
      rw [toStrE, toStr, renderChildrenE_eq opts cs]
      rfl
  | .attribute name vs => by
      rw [toStrE, toStr, renderChildrenE_eq opts vs]
      rfl
  | .text t => rfl
  | .cdata d => rfl
  | .comment c => rfl
  | .charRef cp hex => rfl
  | .entityRef n => rfl
  | .procInst target content => rfl
  | .dtdEntity t => rfl

theorem renderChildrenE_eq (opts : StringOptions) :
    ∀ cs : List XmlTree,
      renderChildrenE opts cs = Except.ok (renderChildren opts cs)
  | [] => rfl
  | c :: cs => by
      rw [renderChildrenE, renderChildren, toStrE_eq opts c,
        renderChildrenE_eq opts cs]
      rfl

end

/-- C9: serialization never fails on a tree whose construction succeeded:
on the error-channel serializer (whose cases mirror the `toString`
implementations, none of which contains a validation or throw site — the
only throwing `toString`, the abstract base class's, is unreachable for
the closed variant set), every well-formed tree renders to `ok` of the
pure rendering, for every options value. -/
theorem c9_serialization_never_fails (t : XmlTree) (opts : StringOptions)
    (hwf : wfTree t = true) :
    toStrE opts t = Except.ok (toStr opts t) :=
  toStrE_eq opts t

/-- C9 witness: a concrete well-formed tree and its successful
rendering. -/
theorem c9_witness :
    wfTree (XmlTree.element "a" [XmlTree.text "x"]) = true ∧
      toStrE {} (XmlTree.element "a" [XmlTree.text "x"])
        = Except.ok (toStr {} (XmlTree.element "a" [XmlTree.text "x"])) := by
  refine ⟨by decide, ?_⟩
  exact c9_serialization_never_fails (XmlTree.element "a" [XmlTree.text "x"])
    {} (by decide)

theorem strConcat_cons (s : String) (l : List String) :
    strConcat (s :: l) = s ++ strConcat l := rfl

theorem renderChildren_eq_map (opts : StringOptions) (cs : List XmlTree) :
    renderChildren opts cs = cs.map (fun c => (c, toStr opts c)) := by
  induction cs with
  | nil => rfl
  | cons c cs ih =>
      rw [renderChildren, ih]
      rfl

theorem filter_attr_pairs (f : XmlTree → String) (cs : List XmlTree) :
    (cs.map (fun c => (c, f c))).filter (fun pr => isAttributeNode pr.1)
      = (cs.filter isAttributeNode).map (fun c => (c, f c)) := by
  induction cs with
  | nil => rfl
  | cons c cs ih => by_cases h : isAttributeNode c <;> simp [h, ih]

theorem filter_content_pairs (f : XmlTree → String) (cs : List XmlTree) :
    (cs.map (fun c => (c, f c))).filter (fun pr => !isAttributeNode pr.1)
      = (cs.filter (fun c => !isAttributeNode c)).map (fun c => (c, f c)) := by
  induction cs with
  | nil => rfl
  | cons c cs ih => by_cases h : isAttributeNode c <;> simp [h, ih]

theorem map_fst_pair (f : XmlTree → String) (cs : List XmlTree) :
    (cs.map (fun c => (c, f c))).map Prod.fst = cs := by
  induction cs with
  | nil => rfl
  | cons c cs ih => simp [ih]

theorem foldl_attr (l : List (XmlTree × String)) (init : String) :
    l.foldl (fun acc pr => acc ++ " " ++ pr.2) init
      = init ++ strConcat (l.map (fun pr => " " ++ pr.2)) := by
  induction l generalizing init with
  | nil => exact (String.append_empty init).symm
  | cons p l ih =>
      rw [List.foldl_cons, ih, List.map_cons, strConcat_cons]
      simp [String.append_assoc]

theorem ite_append_right (c : Prop) [Decidable c] (a b : String) :
    (if c then a ++ b else a) = a ++ (if c then b else "") := by
  split_ifs with h
  · rfl
  · exact (String.append_empty a).symm

/-- An element with no content-node children renders self-closing. -/
theorem element_toStr_empty (opts : StringOptions) (name : String)
    (cs : List XmlTree)
    (hnil : cs.filter (fun c => !isAttributeNode c) = []) :
    toStr opts (XmlTree.element name cs)
      = "<" ++ name
        ++ strConcat ((cs.filter isAttributeNode).map
            (fun a => " " ++ toStr opts a))
        ++ "/>" := by
  rw [toStr, renderChildren_eq_map]
  simp only [elementToStringCore]
  rw [filter_attr_pairs, filter_content_pairs, hnil]
  rw [foldl_attr]
  simp only [List.map_map]
  rfl

/-- An element with content-node children renders as the opening tag, the
content-node loop, the conditional closing newline, and the end tag. -/
theorem element_toStr_nonempty (opts : StringOptions) (name : String)
    (cs : List XmlTree)
    (hne : cs.filter (fun c => !isAttributeNode c) ≠ []) :
    toStr opts (XmlTree.element name cs)
      = "<" ++ name
        ++ strConcat ((cs.filter isAttributeNode).map
            (fun a => " " ++ toStr opts a))
        ++ ">"
        ++ renderContent opts
            (allSameLineNodes (cs.filter (fun c => !isAttributeNode c)))
            none
            ((cs.filter (fun c => !isAttributeNode c)).map
              (fun c => (c, toStr opts c)))
        ++ (if opts.pretty
              && !allSameLineNodes (cs.filter (fun c => !isAttributeNode c))
            then opts.newline else "")
        ++ "</" ++ name ++ ">" := by
  rw [toStr, renderChildren_eq_map]
  simp only [elementToStringCore]
  rw [filter_attr_pairs, filter_content_pairs, map_fst_pair, foldl_attr]
  rw [if_pos (by
    rw [List.length_map]
    exact List.length_pos.mpr hne)]
  rw [ite_append_right]
  simp only [List.map_map, String.append_assoc]
  rfl

theorem specInline_eq (t : XmlTree) :
    specInlineCompatible t = isSameLineNode t := by
  cases t <;> rfl

theorem all_specInline (cs : List XmlTree) :
    cs.all specInlineCompatible = allSameLineNodes cs := by
  unfold allSameLineNodes
  induction cs with
  | nil => rfl
  | cons c cs ih => simp [List.all_cons, specInline_eq, ih]

/-- When every content node is a same-line node, the loop emits the
renderings with no breaks or indentation. -/
theorem renderContent_allSame (opts : StringOptions)
    (pairs : List (XmlTree × String)) :
    ∀ prev, renderContent opts true prev pairs
      = strConcat (pairs.map Prod.snd) := by
  induction pairs with
  | nil => intro prev; rfl
  | cons p rest ih =>
      intro prev
      obtain ⟨t, str⟩ := p
      simp only [renderContent]
      rw [ih]
      simp [strConcat_cons]

/-- When not every content node is a same-line node and pretty printing is
on, the loop coincides with the spec's per-node break rule. -/
theorem renderContent_break (opts : StringOptions) (hp : opts.pretty = true)
    (pairs : List (XmlTree × String)) :
    ∀ prev, renderContent opts false prev pairs
      = specBreakRun opts prev pairs := by
  induction pairs with
  | nil => intro prev; rfl
  | cons p rest ih =>
      intro prev
      obtain ⟨t, str⟩ := p
      simp only [renderContent, specBreakRun]
      rw [ih]
      congr 1
      rcases prev with _ | pv
      · simp [hp]
      · cases h1 : isSameLineNode t <;> cases h2 : isSameLineNode pv <;>
          simp [hp, onSameLine, specInline_eq, h1, h2]

/-- C6: an element with zero content-node children renders self-closing
(`<name` + space-prefixed attributes in child order + `/>`), for every
options value; with at least one content node it instead closes the
opening tag with `>`, renders the content nodes in child order through the
content loop (plus the conditional pretty closing newline), and ends with
`</name>`. -/
theorem c6_self_closing (opts : StringOptions) (name : String)
    (cs : List XmlTree) :
    (cs.filter (fun c => !isAttributeNode c) = [] →
      toStr opts (XmlTree.element name cs)
        = "<" ++ name
          ++ strConcat ((cs.filter isAttributeNode).map
              (fun a => " " ++ toStr opts a))
          ++ "/>") ∧
    (cs.filter (fun c => !isAttributeNode c) ≠ [] →
      toStr opts (XmlTree.element name cs)
        = "<" ++ name
          ++ strConcat ((cs.filter isAttributeNode).map
              (fun a => " " ++ toStr opts a))
          ++ ">"
          ++ renderContent opts
              (allSameLineNodes (cs.filter (fun c => !isAttributeNode c)))
              none
              ((cs.filter (fun c => !isAttributeNode c)).map
                (fun c => (c, toStr opts c)))
          ++ (if opts.pretty
                && !allSameLineNodes (cs.filter (fun c => !isAttributeNode c))
              then opts.newline else "")
          ++ "</" ++ name ++ ">") :=
  ⟨element_toStr_empty opts name cs, element_toStr_nonempty opts name cs⟩

/-- C6 witness: an element with only an attribute child renders
self-closing; one with a text child renders with content and end tag. -/
theorem c6_witness :
    toStr {} (XmlTree.element "a" [XmlTree.attribute "b" [XmlTree.text "c"]])
        = "<a b=\"c\"/>" ∧
      toStr {} (XmlTree.element "a" [XmlTree.text "x"]) = "<a>x</a>" := by
  constructor
  · have h := (c6_self_closing {} "a"
      [XmlTree.attribute "b" [XmlTree.text "c"]]).1 rfl
    exact h.trans rfl
  · have h := (c6_self_closing {} "a" [XmlTree.text "x"]).2
      (fun hco => List.noConfusion hco)
    exact h.trans rfl

/-- C1: with pretty printing on and at least one content node, an element
renders as its opening tag (with attributes), then its content laid out by
the spec's line-break policy — no breaks at all when every content node is
inline-compatible; otherwise a newline and one indent unit before each
content node except between two consecutive inline-compatible nodes, and a
trailing newline before the closing tag. -/
theorem c1_line_break_policy (opts : StringOptions) (name : String)
    (cs : List XmlTree) (hp : opts.pretty = true)
    (hne : cs.filter (fun c => !isAttributeNode c) ≠ []) :
    toStr opts (XmlTree.element name cs)
      = "<" ++ name
        ++ strConcat ((cs.filter isAttributeNode).map
            (fun a => " " ++ toStr opts a))
        ++ ">"
        ++ specPrettyContent opts
            ((cs.filter (fun c => !isAttributeNode c)).map
              (fun c => (c, toStr opts c)))
        ++ "</" ++ name ++ ">" := by
  rw [element_toStr_nonempty opts name cs hne]
  unfold specPrettyContent
  rw [map_fst_pair, all_specInline]
  by_cases hall :
      allSameLineNodes (cs.filter (fun c => !isAttributeNode c)) = true
  · rw [hall, if_pos rfl, renderContent_allSame]
    simp [hp, String.append_empty, String.append_assoc]
  · have hall' :
        allSameLineNodes (cs.filter (fun c => !isAttributeNode c)) = false :=
      by simpa using hall
    rw [hall', renderContent_break opts hp]
    simp [hp, String.append_assoc]

/-- C1 witness: a text node and an element child under pretty printing:
not all content is inline-compatible, so each content node is broken onto
its own indented line and a newline precedes the closing tag. -/
theorem c1_witness :
    toStr { pretty := true }
        (XmlTree.element "a" [XmlTree.text "x", XmlTree.element "b" []])
      = "<a>\n  x\n  <b/>\n</a>" := by
  have h := c1_line_break_policy { pretty := true } "a"
    [XmlTree.text "x", XmlTree.element "b" []] rfl
    (fun hco => List.noConfusion hco)
  exact h.trans rfl

/-- With every string entry valid, the normalization loop replaces the
string entries by sequentially allocated text-node references. -/
theorem normalizeArr_valid (xs : List AttrVal) :
    ∀ (s : Store) (next : Nat),
      (∀ t, AttrVal.str t ∈ xs → validateChar t = true) →
      (normalizeArr s next xs).1 = replacedArr next xs := by
  induction xs with
  | nil =>
      intro s next hval
      rfl
  | cons v rest ih =>
      intro s next hval
      cases v with
      | node i =>
          simp only [normalizeArr, replacedArr]
          rw [ih s next (fun t ht => hval t (List.mem_cons_of_mem _ ht))]
      | str t =>
          have hv : validateChar t = true := hval t (List.mem_cons_self _ _)
          simp only [normalizeArr, newXmlText, hv, Bool.not_true,
            Bool.false_eq_true, if_false, replacedArr]
          rw [ih _ (next + 1) (fun u hu => hval u (List.mem_cons_of_mem _ hu))]

theorem replacedArr_nodes (xs : List AttrVal) :
    ∀ next, (replacedArr next xs).all isNodeVal = true := by
  induction xs with
  | nil => intro next; rfl
  | cons v rest ih =>
      intro next
      cases v <;> simp [replacedArr, isNodeVal, ih]

/-- C10: a call `element.attribute(name, value, index)` with an array
value mutates the caller's array object in place: every string entry is
replaced by a freshly constructed Text node before the Attribute is built
(so the mutation happens even if a later step fails), and afterwards the
array contains no string entries. -/
theorem c10_attribute_array_mutation (s : Store) (next self : Nat)
    (name : String) (index : Option Nat) (xs : List AttrVal)
    (hval : ∀ t, AttrVal.str t ∈ xs → validateChar t = true) :
    (XmlElement.attribute s next self name (AttrValue.arr xs) index).1
        = AttrValue.arr (replacedArr next xs) ∧
      (replacedArr next xs).all isNodeVal = true := by
  constructor
  · have h := normalizeArr_valid xs s next hval
    unfold XmlElement.attribute
    simp only [normalizeValue]
    split <;> (try split) <;> (try split) <;> simp [h]
  · exact replacedArr_nodes xs next

/-- C10 witness: the caller's two-entry array, one string and one node,
comes back with the string entry replaced by the freshly allocated text
node `10`. -/
theorem c10_witness :
    (XmlElement.attribute exStore 10 0 "w"
        (AttrValue.arr [AttrVal.str "v", AttrVal.node 7]) none).1
      = AttrValue.arr [AttrVal.node 10, AttrVal.node 7] ∧
      (AttrValue.arr [AttrVal.node 10, AttrVal.node 7]
        ≠ AttrValue.arr [AttrVal.str "v", AttrVal.node 7]) := by
  have h := c10_attribute_array_mutation exStore 10 0 "w" none
    [AttrVal.str "v", AttrVal.node 7]
    (by
      intro t ht
      simp only [List.mem_cons, List.not_mem_nil, or_false] at ht
      rcases ht with ht | ht
      · rw [AttrVal.str.injEq] at ht
        rw [ht]
        decide
      · exact AttrVal.noConfusion ht)
  exact ⟨h.1.trans rfl, by decide⟩

theorem afterIns_name (s1 : Store) (self node idx j : Nat) :
    (afterIns s1 self node idx j).name = (s1 j).name := by
  unfold afterIns
  simp only [upd_apply]
  split_ifs <;> rfl

/-- Inserting an attribute node whose name collides with an existing
attribute child fails with `DuplicateAttribute` (the scan precedes every
mutation). -/
theorem insert_dup_error (s : Store) (self a c : Nat) (index : Option Nat)
    (htag : (s self).tag = Tag.element)
    (hc : c ∈ (s self).children) (hctag : (s c).tag = Tag.attribute)
    (hname : (s c).name = (s a).name)
    (hatag : (s a).tag = Tag.attribute) :
    insertChildD s self a index = Except.error Err.duplicateAttribute := by
  have hD : insertChildD s self a index
      = XmlElement.insertChild s self a index := by
    unfold insertChildD
    rw [htag]
  rw [hD]
  unfold XmlElement.insertChild
  have hscan : (((s self).children.filter
      (fun x => (s x).tag = Tag.attribute)).any
      (fun x => (s x).name = (s a).name)) = true :=
    List.any_eq_true.mpr
      ⟨c, List.mem_filter.mpr ⟨hc, by simp [hctag]⟩, by simp [hname]⟩
  rw [if_neg (by simp [hatag, allowedXmlElementChild]),
    if_pos (by simp [hatag, hscan])]

/-- C4: with an Attribute child named `m` already present on an element,
inserting a second Attribute named `m` — directly via `insertChild`, or
through the `attribute` factory — fails with `DuplicateAttribute`; the
failure is raised before the element is mutated, so its child sequence
(and in particular its attribute count) is unchanged. -/
theorem c4_duplicate_attribute (s : Store) (self a c : Nat)
    (index : Option Nat) (m : String)
    (htag : (s self).tag = Tag.element)
    (hc : c ∈ (s self).children) (hctag : (s c).tag = Tag.attribute)
    (hcname : (s c).name = m)
    (hatag : (s a).tag = Tag.attribute) (haname : (s a).name = m) :
    insertChildD s self a index = Except.error Err.duplicateAttribute ∧
      (∀ (next : Nat) (t : String), validateChar t = true →
        validateName m = true → self < next →
        (∀ i, i ∈ (s self).children → i < next) →
        (XmlElement.attribute s next self m (AttrValue.one (AttrVal.str t))
          index).2 = Except.error Err.duplicateAttribute) := by
  constructor
  · exact insert_dup_error s self a c index htag hc hctag
      (by rw [hcname, haname]) hatag
  · intro next t hvt hvm hsn hchn
    have hne1 : self ≠ next := Nat.ne_of_lt hsn
    have hne2 : self ≠ next + 1 := by omega
    have hcn : c < next := hchn c hc
    have hcne1 : c ≠ next := Nat.ne_of_lt hcn
    have hcne2 : c ≠ next + 1 := by omega
    have h1 : newXmlText s next t = Except.ok
        (upd s next (fun _ =>
          { tag := Tag.text, name := "", parent := none, children := [] }),
         next + 1, next) := by
      unfold newXmlText
      rw [if_neg (by simp [hvt])]
    set s1 : Store := upd s next (fun _ =>
      { tag := Tag.text, name := "", parent := none, children := [] })
      with hs1
    set s2 : Store := upd s1 (next + 1) (fun _ =>
      { tag := Tag.attribute, name := m, parent := none, children := [] })
      with hs2
    have h2tag : (s2 (next + 1)).tag = Tag.attribute := by
      rw [hs2, upd_apply, if_pos rfl]
    have h2ch : (s2 (next + 1)).children = [] := by
      rw [hs2, upd_apply, if_pos rfl]
    have h2textTag : (s2 next).tag = Tag.text := by
      rw [hs2, upd_apply, if_neg (by omega), hs1, upd_apply, if_pos rfl]
    have h2textPar : (s2 next).parent = none := by
      rw [hs2, upd_apply, if_neg (by omega), hs1, upd_apply, if_pos rfl]
    have h3 : insertChildD s2 (next + 1) next none
        = Except.ok (afterIns s2 (next + 1) next 0, some next) := by
      have hD : insertChildD s2 (next + 1) next none
          = XmlAttribute.insertChild s2 (next + 1) next none := by
        unfold insertChildD
        rw [h2tag]
      rw [hD]
      unfold XmlAttribute.insertChild
      rw [if_neg (by simp [h2textTag, allowedXmlAttributeChild])]
      rw [insertChild_unfold, h2ch]
      rw [if_neg (by decide), if_neg (by simp), h2textPar]
      rfl
    have h4 : newXmlAttribute s1 (next + 1) m
        (AttrValue.one (AttrVal.node next))
        = Except.ok (afterIns s2 (next + 1) next 0, next + 2, next + 1) := by
      unfold newXmlAttribute
      rw [if_neg (by simp [hvm])]
      simp only [valueIds, ← hs2, insertValueNodes, h3]
    set s3 : Store := afterIns s2 (next + 1) next 0 with hs3
    have h5tag : (s3 self).tag = Tag.element := by
      rw [hs3, afterIns_tag, hs2, upd_apply, if_neg hne2, hs1, upd_apply,
        if_neg hne1]
      exact htag
    have h5ch : (s3 self).children = (s self).children := by
      rw [hs3, afterIns_children, if_neg hne2, hs2, upd_apply, if_neg hne2,
        hs1, upd_apply, if_neg hne1]
    have h5ctag : (s3 c).tag = Tag.attribute := by
      rw [hs3, afterIns_tag, hs2, upd_apply, if_neg hcne2, hs1, upd_apply,
        if_neg hcne1]
      exact hctag
    have h5cname : (s3 c).name = m := by
      rw [hs3, afterIns_name, hs2, upd_apply, if_neg hcne2, hs1, upd_apply,
        if_neg hcne1]
      exact hcname
    have h5atag : (s3 (next + 1)).tag = Tag.attribute := by
      rw [hs3, afterIns_tag]
      exact h2tag
    have h5aname : (s3 (next + 1)).name = m := by
      rw [hs3, afterIns_name, hs2, upd_apply, if_pos rfl]
    have h6 : insertChildD s3 self (next + 1) index
        = Except.error Err.duplicateAttribute :=
      insert_dup_error s3 self (next + 1) c index h5tag (h5ch ▸ hc) h5ctag
        (by rw [h5cname, h5aname]) h5atag
    unfold XmlElement.attribute
    simp only [normalizeValue, h1, h4, ← hs3, h6]

/-- C4 witness: element `0` of `exStore` carries the attribute child `1`
named `a`; inserting the detached attribute-tagged node `5` named `a` (in
`exStore2`), and calling the factory with name `a`, both fail with
`DuplicateAttribute`. -/
theorem c4_witness :
    insertChildD exStore2 0 5 none = Except.error Err.duplicateAttribute ∧
      (XmlElement.attribute exStore2 10 0 "a"
        (AttrValue.one (AttrVal.str "v")) none).2
        = Except.error Err.duplicateAttribute := by
  have h := c4_duplicate_attribute exStore2 0 5 1 none "a" rfl (by decide)
    rfl rfl rfl rfl
  exact ⟨h.1, h.2 10 "v" (by decide) (by decide) (by decide)
    (by intro i hi; simp [exStore2] at hi; omega)⟩

end Xml
